import Mathlib

/-!
Shallow embedding of `src/csv_cleaner.py`.

Python strings are modelled as `List Char`.  Python's `str.strip`,
`str.isspace`, `re \s` and `re \D` are modelled on their ASCII behaviour
(space, tab, LF, CR, vertical tab, form feed; digits 0-9), and
`str.lower` on its ASCII behaviour, which covers every character the
program's tables and the spec's examples use.
-/

namespace CsvCleaner

abbrev Str := List Char

def str (s : String) : Str := s.toList

/-- ASCII whitespace characters recognised by Python's `strip`/`isspace`/`\s`. -/
def pyWhitespace : List Char := [' ', '\t', '\n', '\r', '\x0b', '\x0c']

def isPySpace (c : Char) : Bool := pyWhitespace.contains c

/-- Python `str.strip()`: drop whitespace from both ends. -/
def pyStrip (s : Str) : Str :=
  ((s.dropWhile isPySpace).reverse.dropWhile isPySpace).reverse

/-- Python `str.strip(chars)` for an explicit character set. -/
def pyStripChars (cs : List Char) (s : Str) : Str :=
  ((s.dropWhile cs.contains).reverse.dropWhile cs.contains).reverse

/-- The ASCII lower-case table used to model Python `str.lower()`. -/
def asciiLowerTable : List (Char × Char) :=
  [('A', 'a'), ('B', 'b'), ('C', 'c'), ('D', 'd'), ('E', 'e'), ('F', 'f'),
   ('G', 'g'), ('H', 'h'), ('I', 'i'), ('J', 'j'), ('K', 'k'), ('L', 'l'),
   ('M', 'm'), ('N', 'n'), ('O', 'o'), ('P', 'p'), ('Q', 'q'), ('R', 'r'),
   ('S', 's'), ('T', 't'), ('U', 'u'), ('V', 'v'), ('W', 'w'), ('X', 'x'),
   ('Y', 'y'), ('Z', 'z')]

def lowerChar (c : Char) : Char := (asciiLowerTable.lookup c).getD c

/-- Python `str.lower()` (ASCII). -/
def lower (s : Str) : Str := s.map lowerChar

/-- Python `str.replace(a, b)` for single characters. -/
def replaceChar (a b : Char) (s : Str) : Str :=
  s.map (fun c => if c = a then b else c)

/-- Python `str.replace(a, '')` for a single character. -/
def removeChar (a : Char) (s : Str) : Str := s.filter (fun c => c ≠ a)

/-- The `SYNONYMS` table of `csv_cleaner.py` (lines 10-42). -/
def SYNONYMS : List (Str × Str) :=
  [(str "e-mail", str "email"),
   (str "email_address", str "email"),
   (str "email address", str "email"),
   (str "e-mail_address", str "email"),
   (str "e-mail address", str "email"),
   (str "mail", str "email"),
   (str "email_addr", str "email"),
   (str "emailaddr", str "email"),
   (str "full_name", str "name"),
   (str "full name", str "name"),
   (str "customer_name", str "name"),
   (str "customer name", str "name"),
   (str "contact_name", str "name"),
   (str "contact name", str "name"),
   (str "phone_number", str "phone"),
   (str "phone number", str "phone"),
   (str "phone_no", str "phone"),
   (str "phone no", str "phone"),
   (str "mobile", str "phone"),
   (str "mobile_number", str "phone"),
   (str "mobile number", str "phone"),
   (str "home_phone", str "phone"),
   (str "home phone", str "phone"),
   (str "telephone", str "phone"),
   (str "tel", str "phone"),
   (str "number", str "phone")]

/-- The `NULL_LIKE` set of `csv_cleaner.py` (lines 45-48). -/
def NULL_LIKE : List Str :=
  [str "", str "n/a", str "na", str "null", str "none", str "-", str "nan",
   str "—", str "–"]

/-- The normalization pipeline of `normalize_header` (lines 51-54):
strip, lower, spaces to underscores, remove `.` and `#`. -/
def normalized_core (h : Str) : Str :=
  removeChar '#' (removeChar '.' (replaceChar ' ' '_' (lower (pyStrip h))))

/-- `normalize_header` (lines 50-55): the normalization pipeline followed
by the `SYNONYMS` lookup (line 55). -/
def normalize_header (h : Str) : Str :=
  (SYNONYMS.lookup (normalized_core h)).getD (normalized_core h)

def isQuoteChar (c : Char) : Bool := c = '\'' || c = '"'

/-- The guard of the `while` loop in `strip_wrapping_quotes` (line 64):
`len(s) >= 2 and s[0] == s[-1] and s[0] in ("'", '"')`. -/
def isWrapped (s : Str) : Bool :=
  match s with
  | [] => false
  | c :: rest =>
    match rest.getLast? with
    | none => false
    | some d => c == d && isQuoteChar c

/-- The `while` loop body of `strip_wrapping_quotes` (lines 64-65), run with
explicit fuel.  Each iteration removes the first and last character and
re-strips, so the loop makes at most `s.length` iterations; fuel
`s.length` therefore always suffices (see `swqLoopFuel_irrel`). -/
def swqLoopFuel : Nat → Str → Str
  | 0, s => s
  | n + 1, s =>
    if isWrapped s then swqLoopFuel n (pyStrip ((s.drop 1).dropLast)) else s

/-- `strip_wrapping_quotes` (lines 57-66). -/
def strip_wrapping_quotes (s : Str) : Str :=
  swqLoopFuel (pyStrip s).length (pyStrip s)

/-- Python `' '.join(s.split())`: collapse whitespace runs to single spaces. -/
def collapseWs (s : Str) : Str :=
  List.intercalate [' '] ((List.splitOnP isPySpace s).filter (fun t => !t.isEmpty))

/-- `clean_value` (lines 68-91) up to, but not including, the final
null-sentinel check: whitespace normalisation, strip, wrapping-quote
removal, then the per-field branch (email: drop all whitespace, lower,
`strip('<>')`, strip; other fields: collapse internal whitespace). -/
def preNullClean (val : Str) (col : Str) : Str :=
  let s1 := replaceChar '\n' ' ' (replaceChar '\r' ' ' (replaceChar '\t' ' ' val))
  let s2 := strip_wrapping_quotes (pyStrip s1)
  if col = str "email" then
    pyStrip (pyStripChars ['<', '>'] (lower (s2.filter (fun c => !isPySpace c))))
  else
    collapseWs s2

/-- `clean_value` (lines 68-91): the cleaning pipeline followed by the
null-sentinel collapse `if s.lower() in NULL_LIKE: return ''`. -/
def clean_value (val : Str) (col : Str) : Str :=
  if NULL_LIKE.contains (lower (preNullClean val col)) then []
  else preNullClean val col

def isPyDigit (c : Char) : Bool := '0' ≤ c && c ≤ '9'

/-- `clean_phone` (lines 93-105). -/
def clean_phone (val : Str) : Str :=
  if (clean_value val (str "phone")).isEmpty then []
  else if ((clean_value val (str "phone")).filter isPyDigit).take 2 == str "44"
      && ((clean_value val (str "phone")).filter isPyDigit).length == 12
      && ((clean_value val (str "phone")).filter isPyDigit).get? 2 == some '7'
  then '0' :: ((clean_value val (str "phone")).filter isPyDigit).drop 2
  else (clean_value val (str "phone")).filter isPyDigit

/-- `looks_like_email` (lines 120-133). -/
def looks_like_email (s0 : Str) : Bool :=
  let s := pyStrip s0
  if s.isEmpty then false
  else if !(s.count '@' == 1) then false
  else
    let lpart := s.takeWhile (fun c => c ≠ '@')
    let dpart := (s.dropWhile (fun c => c ≠ '@')).drop 1
    if lpart.isEmpty || dpart.isEmpty then false
    else if !(dpart.contains '.') then false
    else if s.any isPySpace then false
    else true

def REQUIRED : List Str := [str "email", str "name", str "phone"]

/-- `build_mapping` (lines 107-114): canonical field name to the first raw
header (in file order) normalising to it. -/
def build_mapping (fieldnames : List Str) : List (Str × Str) :=
  fieldnames.foldl
    (fun m original =>
      let normed := normalize_header original
      if REQUIRED.contains normed && (m.lookup normed).isNone
      then m ++ [(normed, original)]
      else m)
    []

/-- A clean record: the three canonical fields (line 162). -/
structure CleanRecord where
  email : Str
  name : Str
  phone : Str
deriving DecidableEq, Repr

/-- `row_key` (lines 116-118): the dedupe key `('email', clean_row['email'])`. -/
def row_key (r : CleanRecord) : Str × Str := (str "email", r.email)

/-- The four row outcomes of the classification chain (lines 176-191). -/
inductive Outcome where
  | empty
  | invalidEmail
  | duplicate
  | accepted
deriving DecidableEq, Repr

/-- The classification chain of `main` (lines 176-187): empty check, then
email-validity check, then dedupe check, else accepted. -/
def classify (seen : List (Str × Str)) (r : CleanRecord) : Outcome :=
  if r.email = [] ∧ r.name = [] ∧ r.phone = [] then .empty
  else if !looks_like_email r.email then .invalidEmail
  else if seen.contains (row_key r) then .duplicate
  else .accepted

/-- The run-wide mutable state of `main` (lines 136-144): counters, the
seen set and the output collection. -/
structure RunState where
  files_processed : Nat
  rows_read : Nat
  rows_written : Nat
  rows_skipped_empty : Nat
  dupes_removed : Nat
  rows_skipped_invalid_email : Nat
  seen : List (Str × Str)
  output_rows : List CleanRecord
deriving DecidableEq, Repr

def initState : RunState := ⟨0, 0, 0, 0, 0, 0, [], []⟩

/-- One iteration of the row loop of `main` (lines 160-191) applied to an
already-assembled record: bump `rows_read`, then run the classification
chain, updating the matching counter and, on acceptance, the seen set and
the output collection. -/
def processRecord (st : RunState) (r : CleanRecord) : RunState :=
  match classify st.seen r with
  | .empty =>
      { st with
        rows_read := st.rows_read + 1
        rows_skipped_empty := st.rows_skipped_empty + 1 }
  | .invalidEmail =>
      { st with
        rows_read := st.rows_read + 1
        rows_skipped_invalid_email := st.rows_skipped_invalid_email + 1 }
  | .duplicate =>
      { st with
        rows_read := st.rows_read + 1
        dupes_removed := st.dupes_removed + 1 }
  | .accepted =>
      { st with
        rows_read := st.rows_read + 1
        seen := st.seen ++ [row_key r]
        output_rows := st.output_rows ++ [r]
        rows_written := st.rows_written + 1 }

/-- Field assembly in the row loop (lines 164-174): look the canonical
column up in the mapping; a missing or falsy original key yields the empty
string, otherwise the raw cell is routed through `clean_phone` for the
phone field and `clean_value` otherwise.  A cell absent from the row
(short row) is treated as empty, matching `row.get(key, '')` with
`clean_value(None) = ''`. -/
def assembleField (mapping : List (Str × Str)) (row : List (Str × Str))
    (col : Str) : Str :=
  match mapping.lookup col with
  | none => []
  | some key =>
    if key.isEmpty then []
    else if col = str "phone" then clean_phone ((row.lookup key).getD [])
    else clean_value ((row.lookup key).getD []) col

def assembleRow (mapping : List (Str × Str)) (row : List (Str × Str)) :
    CleanRecord :=
  { email := assembleField mapping row (str "email")
    name := assembleField mapping row (str "name")
    phone := assembleField mapping row (str "phone") }

def processRow (st : RunState) (mapping : List (Str × Str)) (row : List (Str × Str)) :
    RunState :=
  processRecord st (assembleRow mapping row)

/-- Processing of one CSV file (lines 146-191), the file given as its list
of rows (each a list of cells).  `files_processed` is bumped first (line
151); a file with no header row — `reader.fieldnames` falsy, i.e. an empty
file or a blank first line — is then skipped (lines 155-156).  Data rows
are paired with the header positionally, as `csv.DictReader` does; blank
rows are skipped by `DictReader` itself. -/
def processFile (st : RunState) (file : List (List Str)) : RunState :=
  match file with
  | [] => { st with files_processed := st.files_processed + 1 }
  | header :: dataRows =>
    if header.isEmpty then { st with files_processed := st.files_processed + 1 }
    else
      (dataRows.filter (fun row => !row.isEmpty)).foldl
        (fun s row => processRow s (build_mapping header) (header.zip row))
        { st with files_processed := st.files_processed + 1 }

/-- The whole run of `main` over the discovered CSV files, in directory
order. -/
def processFiles (st : RunState) (files : List (List (List Str))) : RunState :=
  files.foldl processFile st

/-- The counter-conservation invariant of claim C10. -/
def countersBalanced (st : RunState) : Prop :=
  st.rows_read =
      st.rows_written + st.rows_skipped_empty + st.dupes_removed +
        st.rows_skipped_invalid_email ∧
  st.rows_written = st.output_rows.length

instance : DecidablePred countersBalanced := by
  unfold countersBalanced
  infer_instance

/-- Claim C4's reading of the email bracket trim, for comparison with the
code: remove exactly one layer of `<...>` and only when the brackets
enclose the whole value. -/
def trimSingleAngleLayer (s : Str) : Str :=
  match s with
  | c :: rest =>
    if c = '<' && rest.getLast? == some '>' then rest.dropLast else s
  | [] => s

/-- The email-field cleaning as claim C4 words it: same pipeline as the
code, except that the angle-bracket step removes a single enclosing layer
instead of `strip('<>')`. -/
def claimedEmailClean (val : Str) : Str :=
  let s1 := replaceChar '\n' ' ' (replaceChar '\r' ' ' (replaceChar '\t' ' ' val))
  let s2 := strip_wrapping_quotes (pyStrip s1)
  let s3 := trimSingleAngleLayer (lower (s2.filter (fun c => !isPySpace c)))
  if NULL_LIKE.contains (lower s3) then [] else s3

/-- Bool test used to state that a cleaned email neither starts nor ends
with an angle bracket. -/
def noAngleEnds (s : Str) : Bool :=
  !(s.head? == some '<' || s.head? == some '>' ||
    s.getLast? == some '<' || s.getLast? == some '>')

/-- Invariant tying the output collection to the seen set: output emails
are pairwise distinct and every output record's key is in the seen set. -/
def OutputInv (st : RunState) : Prop :=
  (st.output_rows.map (fun r => r.email)).Nodup ∧
  ∀ r ∈ st.output_rows, row_key r ∈ st.seen

/-- Replace the `files_processed` counter. -/
def setFiles (st : RunState) (k : Nat) : RunState :=
  { st with files_processed := k }

/-! ### Generic helper lemmas -/

theorem lookup_mem {α β : Type} [BEq α] [LawfulBEq α] {l : List (α × β)}
    {k : α} {v : β} (h : l.lookup k = some v) : (k, v) ∈ l := by
  induction l with
  | nil => simp [List.lookup] at h
  | cons p t ih =>
    cases p with
    | mk k1 v1 =>
      rw [List.lookup] at h
      split at h
      · rename_i hb
        cases h
        have : k = k1 := by simpa using hb
        subst this
        exact List.mem_cons_self _ _
      · exact List.mem_cons_of_mem _ (ih h)

theorem map_eq_self_of {f : Char → Char} {l : Str} (h : ∀ c ∈ l, f c = c) :
    l.map f = l := by
  induction l with
  | nil => rfl
  | cons a t ih =>
    simp only [List.map_cons, h a (List.mem_cons_self _ _)]
    rw [ih (fun c hc => h c (List.mem_cons_of_mem _ hc))]

theorem dropWhile_eq_self_of {p : Char → Bool} {l : Str}
    (h : ∀ c ∈ l, p c = false) : l.dropWhile p = l := by
  cases l with
  | nil => rfl
  | cons a t => simp [List.dropWhile, h a (List.mem_cons_self _ _)]

theorem dropWhile_head_not {p : Char → Bool} {l : Str} {c : Char} {t : Str}
    (h : l.dropWhile p = c :: t) : p c = false := by
  induction l with
  | nil => simp at h
  | cons a l' ih =>
    rw [List.dropWhile] at h
    by_cases hp : p a
    · rw [hp] at h
      exact ih (by simpa using h)
    · simp only [Bool.not_eq_true] at hp
      rw [hp] at h
      cases h
      exact hp

theorem dropWhile_getLast? {p : Char → Bool} {l : Str}
    (h : l.dropWhile p ≠ []) : (l.dropWhile p).getLast? = l.getLast? := by
  conv_rhs => rw [← List.takeWhile_append_dropWhile (p := p) (l := l)]
  exact (List.getLast?_append_of_ne_nil _ h).symm

/-! ### Character-level facts -/

theorem lowerTable_lookup_snd :
    ∀ p ∈ asciiLowerTable, asciiLowerTable.lookup p.2 = none := by decide

theorem lowerTable_not_space :
    ∀ p ∈ asciiLowerTable, isPySpace p.1 = false ∧ isPySpace p.2 = false := by
  decide

theorem lowerChar_idem (c : Char) : lowerChar (lowerChar c) = lowerChar c := by
  unfold lowerChar
  cases h : asciiLowerTable.lookup c with
  | none => simp [h]
  | some v =>
    have hv : (c, v) ∈ asciiLowerTable := lookup_mem h
    simp [h, lowerTable_lookup_snd _ hv]

theorem isPySpace_lowerChar (c : Char) : isPySpace (lowerChar c) = isPySpace c := by
  unfold lowerChar
  cases h : asciiLowerTable.lookup c with
  | none => simp [h]
  | some v =>
    have hv : (c, v) ∈ asciiLowerTable := lookup_mem h
    have h1 := (lowerTable_not_space _ hv).1
    have h2 := (lowerTable_not_space _ hv).2
    simp only [h, Option.getD_some]
    rw [h1, h2]

/-! ### Facts about the quote-stripping loop -/

theorem isWrapped_two_le {s : Str} (h : isWrapped s = true) : 2 ≤ s.length := by
  match s with
  | [] => simp [isWrapped] at h
  | [c] => simp [isWrapped] at h
  | a :: b :: t => simp only [List.length_cons]; omega

theorem pyStrip_length_le (s : Str) : (pyStrip s).length ≤ s.length := by
  unfold pyStrip
  simp only [List.length_reverse]
  calc ((s.dropWhile isPySpace).reverse.dropWhile isPySpace).length
      ≤ (s.dropWhile isPySpace).reverse.length := (List.dropWhile_sublist _).length_le
    _ = (s.dropWhile isPySpace).length := List.length_reverse _
    _ ≤ s.length := (List.dropWhile_sublist _).length_le

theorem pyStrip_eq_of_no_space {s : Str} (h : ∀ c ∈ s, isPySpace c = false) :
    pyStrip s = s := by
  unfold pyStrip
  rw [dropWhile_eq_self_of h, dropWhile_eq_self_of (by simpa using h),
    List.reverse_reverse]

theorem swqLoopFuel_nil (n : Nat) : swqLoopFuel n [] = [] := by
  cases n with
  | zero => rfl
  | succ m => simp [swqLoopFuel, isWrapped]

theorem swqLoopFuel_not_wrapped :
    ∀ (n : Nat) (s : Str), s.length ≤ n → isWrapped (swqLoopFuel n s) = false := by
  intro n
  induction n with
  | zero =>
    intro s hs
    have : s = [] := List.length_eq_zero.mp (Nat.le_zero.mp hs)
    subst this
    rfl
  | succ m ih =>
    intro s hs
    rw [swqLoopFuel]
    by_cases hw : isWrapped s
    · rw [if_pos hw]
      apply ih
      have h2 : 2 ≤ s.length := isWrapped_two_le hw
      have h3 := pyStrip_length_le ((s.drop 1).dropLast)
      simp only [List.length_dropLast, List.length_drop] at h3
      omega
    · rw [if_neg hw]
      simpa using hw

theorem swqLoopFuel_irrel :
    ∀ (n m : Nat) (s : Str), s.length ≤ n → s.length ≤ m →
      swqLoopFuel n s = swqLoopFuel m s := by
  intro n
  induction n with
  | zero =>
    intro m s hs _
    have : s = [] := List.length_eq_zero.mp (Nat.le_zero.mp hs)
    subst this
    rw [swqLoopFuel_nil, swqLoopFuel_nil]
  | succ k ih =>
    intro m s hs hm
    cases m with
    | zero =>
      have : s = [] := List.length_eq_zero.mp (Nat.le_zero.mp hm)
      subst this
      rw [swqLoopFuel_nil, swqLoopFuel_nil]
    | succ j =>
      rw [swqLoopFuel, swqLoopFuel]
      by_cases hw : isWrapped s
      · rw [if_pos hw, if_pos hw]
        have h2 : 2 ≤ s.length := isWrapped_two_le hw
        have h3 := pyStrip_length_le ((s.drop 1).dropLast)
        simp only [List.length_dropLast, List.length_drop] at h3
        exact ih j _ (by omega) (by omega)
      · rw [if_neg hw, if_neg hw]

theorem swq_not_wrapped (s : Str) : isWrapped (strip_wrapping_quotes s) = false :=
  swqLoopFuel_not_wrapped _ _ le_rfl

theorem swq_step {s : Str} (h : isWrapped (pyStrip s) = true) :
    strip_wrapping_quotes s =
      strip_wrapping_quotes (((pyStrip s).drop 1).dropLast) := by
  unfold strip_wrapping_quotes
  have h2 : 2 ≤ (pyStrip s).length := isWrapped_two_le h
  obtain ⟨n, hn⟩ : ∃ n, (pyStrip s).length = n + 1 := by
    cases hl : (pyStrip s).length with
    | zero => omega
    | succ k => exact ⟨k, rfl⟩
  rw [hn, swqLoopFuel, if_pos h]
  have h3 := pyStrip_length_le (((pyStrip s).drop 1).dropLast)
  simp only [List.length_dropLast, List.length_drop] at h3
  exact swqLoopFuel_irrel _ _ _ (by omega) le_rfl

theorem swq_fix {s : Str} (h : isWrapped (pyStrip s) = false) :
    strip_wrapping_quotes s = pyStrip s := by
  unfold strip_wrapping_quotes
  cases hl : (pyStrip s).length with
  | zero => rfl
  | succ k => rw [swqLoopFuel, if_neg (by simp [h])]

/-! ### Facts about `strip('<>')` on the email branch -/

theorem pyStripChars_head_not {cs : List Char} {s : Str} {c : Char} {t : Str}
    (h : pyStripChars cs s = c :: t) : cs.contains c = false := by
  unfold pyStripChars at h
  have hB : ((s.dropWhile cs.contains).reverse.dropWhile cs.contains).getLast?
      = some c := by
    rw [← List.head?_reverse, h]
    rfl
  have hBne : (s.dropWhile cs.contains).reverse.dropWhile cs.contains ≠ [] := by
    intro h0
    rw [h0] at hB
    simp at hB
  have hA : (s.dropWhile cs.contains).reverse.getLast? = some c :=
    (dropWhile_getLast? hBne).symm.trans hB
  rw [List.getLast?_reverse] at hA
  cases hAc : s.dropWhile cs.contains with
  | nil => rw [hAc] at hA; simp at hA
  | cons c' t' =>
    rw [hAc] at hA
    simp only [List.head?_cons, Option.some.injEq] at hA
    subst hA
    exact dropWhile_head_not hAc

theorem pyStripChars_last_not {cs : List Char} {s : Str} {c : Char}
    (h : (pyStripChars cs s).getLast? = some c) : cs.contains c = false := by
  unfold pyStripChars at h
  rw [List.getLast?_reverse] at h
  cases hB : (s.dropWhile cs.contains).reverse.dropWhile cs.contains with
  | nil => rw [hB] at h; simp at h
  | cons c' t' =>
    rw [hB] at h
    simp only [List.head?_cons, Option.some.injEq] at h
    subst h
    exact dropWhile_head_not hB

theorem mem_pyStripChars {cs : List Char} {s : Str} {c : Char}
    (h : c ∈ pyStripChars cs s) : c ∈ s := by
  unfold pyStripChars at h
  rw [List.mem_reverse] at h
  have h1 := (List.dropWhile_sublist (l := (s.dropWhile cs.contains).reverse)
    cs.contains).subset h
  rw [List.mem_reverse] at h1
  exact (List.dropWhile_sublist cs.contains).subset h1

theorem mem_lower {s : Str} {c : Char} (h : c ∈ lower s) :
    ∃ d, c = lowerChar d := by
  unfold lower at h
  obtain ⟨d, _, hd⟩ := List.mem_map.mp h
  exact ⟨d, hd.symm⟩

theorem clean_email_noAngle (v : Str) :
    noAngleEnds (clean_value v (str "email")) = true := by
  unfold clean_value
  by_cases hnull :
      NULL_LIKE.contains (lower (preNullClean v (str "email"))) = true
  · simp only [hnull, if_pos]
    rfl
  · rw [if_neg (by simpa using hnull)]
    unfold preNullClean
    rw [if_pos rfl]
    set w := lower
      ((strip_wrapping_quotes
          (pyStrip (replaceChar '\n' ' '
            (replaceChar '\r' ' ' (replaceChar '\t' ' ' v))))).filter
        (fun c => !isPySpace c)) with hw
    have hwns : ∀ c ∈ w, isPySpace c = false := by
      intro c hc
      rw [hw] at hc
      obtain ⟨d, hd⟩ := mem_lower hc
      unfold lower at hc
      obtain ⟨d', hd', hd'2⟩ := List.mem_map.mp hc
      rw [List.mem_filter] at hd'
      rw [← hd'2, isPySpace_lowerChar]
      simpa using hd'.2
    have hxns : ∀ c ∈ pyStripChars ['<', '>'] w, isPySpace c = false :=
      fun c hc => hwns c (mem_pyStripChars hc)
    rw [pyStrip_eq_of_no_space hxns]
    cases hx : pyStripChars ['<', '>'] w with
    | nil => rfl
    | cons c t =>
      have h1 : List.contains ['<', '>'] c = false := pyStripChars_head_not hx
      cases hgl : (c :: t).getLast? with
      | none => simp at hgl
      | some d =>
        have h2 : List.contains ['<', '>'] d = false :=
          pyStripChars_last_not (by rw [hx]; exact hgl)
        simp only [List.contains_cons, Bool.or_eq_false_iff,
          List.contains_nil, beq_eq_false_iff_ne, ne_eq] at h1 h2
        simp [noAngleEnds, hgl, h1.1, h1.2.1, h2.1, h2.2.1]

/-- C4: the claim's single-enclosing-layer reading of the angle-bracket
trim disagrees with the code, which runs `strip('<>')`: on `<<a@b.com>>`
the code removes both bracket pairs (the claim would leave `<a@b.com>`),
and on the non-enclosing `<a@b.com` the code still removes the leading
bracket. -/
theorem c4_single_angle_layer_counterexample :
    clean_value (str "<<a@b.com>>") (str "email")
        ≠ claimedEmailClean (str "<<a@b.com>>") ∧
    clean_value (str "<<a@b.com>>") (str "email") ≠ str "<a@b.com>" ∧
    clean_value (str "<<a@b.com>>") (str "email") = str "a@b.com" ∧
    claimedEmailClean (str "<<a@b.com>>") = str "<a@b.com>" ∧
    clean_value (str "<a@b.com") (str "email") = str "a@b.com" ∧
    claimedEmailClean (str "<a@b.com") = str "<a@b.com" := by
  decide

/-- C4 (amended): for the email field, after quote stripping, clean_value
removes all internal whitespace, lowercases, and then strips all leading
and trailing angle-bracket characters (not just one enclosing pair), so
the result never begins or ends with `<` or `>`;  in particular
`clean_value('  <John.Doe@Example.com> ', 'email') = 'john.doe@example.com'`. -/
theorem c4_email_canonicalization :
    clean_value (str "  <John.Doe@Example.com> ") (str "email")
        = str "john.doe@example.com" ∧
    clean_value (str "<<a@b.com>>") (str "email") = str "a@b.com" ∧
    clean_value (str "<a@b.com") (str "email") = str "a@b.com" ∧
    clean_value (str "a b@C.com") (str "email") = str "ab@c.com" ∧
    ∀ v, noAngleEnds (clean_value v (str "email")) = true := by
  exact ⟨by decide, by decide, by decide, by decide,
    fun v => clean_email_noAngle v⟩

/-! ### Facts about `normalize_header` -/

theorem mem_removeChar {a : Char} {s : Str} {c : Char}
    (h : c ∈ removeChar a s) : c ∈ s ∧ c ≠ a := by
  unfold removeChar at h
  rw [List.mem_filter] at h
  exact ⟨h.1, by simpa using h.2⟩

theorem mem_replaceChar {a b : Char} {s : Str} {c : Char}
    (h : c ∈ replaceChar a b s) : c = b ∨ (c ∈ s ∧ c ≠ a) := by
  unfold replaceChar at h
  obtain ⟨d, hd, hd2⟩ := List.mem_map.mp h
  by_cases hda : d = a
  · left
    rw [← hd2, hda, if_pos rfl]
  · right
    rw [← hd2, if_neg hda]
    exact ⟨hd, hda⟩

theorem synonym_targets_fixed :
    ∀ p ∈ SYNONYMS, normalize_header p.2 = p.2 := by decide

theorem normalized_core_fix {m : Str} (h1 : ∀ c ∈ m, lowerChar c = c)
    (h2 : ' ' ∉ m) (h3 : '.' ∉ m) (h4 : '#' ∉ m) (h5 : pyStrip m = m) :
    normalized_core m = m := by
  have hrepl : replaceChar ' ' '_' m = m := by
    apply map_eq_self_of
    intro c hc
    rw [if_neg]
    intro he
    subst he
    exact h2 hc
  have hdot : removeChar '.' m = m := by
    apply List.filter_eq_self.mpr
    intro c hc
    simp only [ne_eq, decide_eq_true_eq]
    intro he
    subst he
    exact h3 hc
  have hhash : removeChar '#' m = m := by
    apply List.filter_eq_self.mpr
    intro c hc
    simp only [ne_eq, decide_eq_true_eq]
    intro he
    subst he
    exact h4 hc
  unfold normalized_core
  rw [h5, show lower m = m from map_eq_self_of h1, hrepl, hdot, hhash]

set_option maxHeartbeats 1600000 in
/-- C8: `normalize_header` is not idempotent on the code as claimed:
removing `.` can expose trailing non-space whitespace (e.g. a tab), which
only the second application strips — and the re-stripped string can even
hit the synonym table: `'tel\t.'` normalizes to `'tel\t'`, which
normalizes to `'phone'`. -/
theorem c8_idempotence_counterexample :
    normalize_header (normalize_header (str "tel\t."))
        ≠ normalize_header (str "tel\t.") ∧
    normalize_header (str "tel\t.") = str "tel\t" ∧
    normalize_header (str "tel\t") = str "phone" := by
  decide

set_option maxHeartbeats 1600000 in
/-- C8 (amended): `normalize_header` is idempotent on every input whose
first normalization is already whitespace-stripped (which holds in
particular whenever the input has no internal whitespace other than
spaces); each canonical field name and every synonym-table target maps to
itself. -/
theorem c8_normalize_header_idempotence (h : Str) :
    (pyStrip (normalize_header h) = normalize_header h →
      normalize_header (normalize_header h) = normalize_header h) ∧
    (REQUIRED.all fun c => normalize_header c == c) = true ∧
    (SYNONYMS.all fun p => normalize_header p.2 == p.2) = true := by
  refine ⟨?_, by decide, by decide⟩
  intro hs
  have hNh : normalize_header h =
      (SYNONYMS.lookup (normalized_core h)).getD (normalized_core h) := rfl
  cases hl : SYNONYMS.lookup (normalized_core h) with
  | some v =>
    rw [hl, Option.getD_some] at hNh
    rw [hNh]
    exact synonym_targets_fixed _ (lookup_mem hl)
  | none =>
    rw [hl, Option.getD_none] at hNh
    have hcore : ∀ c, c ∈ normalize_header h →
        c ∈ removeChar '#' (removeChar '.'
          (replaceChar ' ' '_' (lower (pyStrip h)))) := by
      intro c hc
      rw [hNh] at hc
      exact hc
    have f1 : ∀ c ∈ normalize_header h, lowerChar c = c := by
      intro c hc
      have hc1 := mem_removeChar (hcore c hc)
      have hc2 := mem_removeChar hc1.1
      rcases mem_replaceChar hc2.1 with hub | hmem
      · rw [hub]; decide
      · obtain ⟨d, hd⟩ := mem_lower hmem.1
        rw [hd, lowerChar_idem]
    have f2 : ' ' ∉ normalize_header h := by
      intro hc
      have hc1 := mem_removeChar (hcore _ hc)
      have hc2 := mem_removeChar hc1.1
      rcases mem_replaceChar hc2.1 with hub | hmem
      · exact absurd hub (by decide)
      · exact hmem.2 rfl
    have f3 : '.' ∉ normalize_header h := by
      intro hc
      have hc1 := mem_removeChar (hcore _ hc)
      exact (mem_removeChar hc1.1).2 rfl
    have f4 : '#' ∉ normalize_header h := by
      intro hc
      exact (mem_removeChar (hcore _ hc)).2 rfl
    rw [show normalize_header (normalize_header h) =
        (SYNONYMS.lookup (normalized_core (normalize_header h))).getD
          (normalized_core (normalize_header h)) from rfl]
    rw [normalized_core_fix f1 f2 f3 f4 hs]
    rw [hNh, hl, Option.getD_none]

set_option maxHeartbeats 1600000 in
/-- Witness for C8: a concrete already-stripped input, exercised through
the idempotence implication. -/
theorem c8_normalize_header_idempotence_witness :
    normalize_header (normalize_header (str "Email Addr"))
        = normalize_header (str "Email Addr") :=
  (c8_normalize_header_idempotence (str "Email Addr")).1 (by decide)

theorem bool_eq_false_of_ne_true {b : Bool} (h : ¬(b = true)) : b = false := by
  cases b
  · rfl
  · exact absurd rfl h

theorem isEmpty_eq_true_of {l : Str} (h : l = []) : l.isEmpty = true := by
  rw [h]
  rfl

theorem isEmpty_eq_false_of_ne {l : Str} (h : l ≠ []) : l.isEmpty = false := by
  cases l with
  | nil => exact absurd rfl h
  | cons a t => rfl

/-- `looks_like_email` as a single Bool conjunction of its five checks. -/
theorem looks_like_email_eq (s0 : Str) :
    looks_like_email s0 =
      (!(pyStrip s0).isEmpty &&
        ((pyStrip s0).count '@' == 1) &&
        !(((pyStrip s0).takeWhile (fun c => c ≠ '@')).isEmpty ||
          (((pyStrip s0).dropWhile (fun c => c ≠ '@')).drop 1).isEmpty) &&
        (((pyStrip s0).dropWhile (fun c => c ≠ '@')).drop 1).contains '.' &&
        !(pyStrip s0).any isPySpace) := by
  simp only [looks_like_email]
  split
  · rename_i h1
    rw [h1]
    rfl
  · rename_i h1
    rw [bool_eq_false_of_ne_true h1]
    split
    · rename_i h2
      have h2f : ((pyStrip s0).count '@' == 1) = false := by
        cases hb : (pyStrip s0).count '@' == 1
        · rfl
        · rw [hb] at h2
          exact absurd h2 (by simp)
      rw [h2f]
      rfl
    · rename_i h2
      have h2t : ((pyStrip s0).count '@' == 1) = true := by
        cases hb : (pyStrip s0).count '@' == 1
        · exact absurd (by rw [hb]; rfl) h2
        · rfl
      rw [h2t]
      split
      · rename_i h3
        rw [h3]
        rfl
      · rename_i h3
        rw [bool_eq_false_of_ne_true h3]
        split
        · rename_i h4
          have h4f : ((((pyStrip s0).dropWhile (fun c => c ≠ '@')).drop 1).contains '.')
              = false := by
            cases hb : (((pyStrip s0).dropWhile (fun c => c ≠ '@')).drop 1).contains '.'
            · rfl
            · rw [hb] at h4
              exact absurd h4 (by simp)
          rw [h4f]
          rfl
        · rename_i h4
          have h4t : ((((pyStrip s0).dropWhile (fun c => c ≠ '@')).drop 1).contains '.')
              = true := by
            cases hb : (((pyStrip s0).dropWhile (fun c => c ≠ '@')).drop 1).contains '.'
            · exact absurd (by rw [hb]; rfl) h4
            · rfl
          rw [h4t]
          split
          · rename_i h5
            rw [h5]
            rfl
          · rename_i h5
            rw [bool_eq_false_of_ne_true h5]
            rfl

/-- C6: generic value cleaning replaces tab/CR/LF by spaces, trims, and
repeatedly peels matching wrapping single/double quotes with re-trimming
until no wrapping pair remains or fewer than 2 characters remain: the
loop's result is never wrapped, one peeling step removes the two end
quotes and re-trims, and an unwrapped trimmed string is returned as-is;
the spec's two round-trip examples hold. -/
theorem c6_quote_whitespace_stripping :
    clean_value (str "  \"  hello  \"  ") (str "name") = str "hello" ∧
    clean_value (str "\"'hi'\"") (str "name") = str "hi" ∧
    (∀ s, isWrapped (strip_wrapping_quotes s) = false) ∧
    (∀ s, isWrapped (pyStrip s) = true →
      strip_wrapping_quotes s =
        strip_wrapping_quotes (((pyStrip s).drop 1).dropLast)) ∧
    (∀ s, isWrapped (pyStrip s) = false → strip_wrapping_quotes s = pyStrip s) := by
  exact ⟨by decide, by decide, swq_not_wrapped, fun s h => swq_step h,
    fun s h => swq_fix h⟩

/-- Witness for C6: the peeling equation and fixpoint case at concrete
inputs. -/
theorem c6_quote_whitespace_stripping_witness :
    strip_wrapping_quotes (str " 'hi' ") =
      strip_wrapping_quotes (((pyStrip (str " 'hi' ")).drop 1).dropLast) ∧
    strip_wrapping_quotes (str "  hello ") = pyStrip (str "  hello ") := by
  constructor
  · exact c6_quote_whitespace_stripping.2.2.2.1 (str " 'hi' ") (by decide)
  · exact c6_quote_whitespace_stripping.2.2.2.2 (str "  hello ") (by decide)

/-- C7: any value whose cleaned, lowercased form lies in the null-sentinel
set cleans to the empty string, for every field; in particular each listed
sentinel literal cleans to empty for the name field. -/
theorem c7_null_sentinel_collapse (s col : Str) :
    (NULL_LIKE.contains (lower (preNullClean s col)) = true →
      clean_value s col = []) ∧
    ([str "", str "N/A", str "na", str "NULL", str "None", str "-", str "NaN",
        str "—", str "–"].all
      (fun t => clean_value t (str "name") == [])) = true := by
  constructor
  · intro h
    show (if NULL_LIKE.contains (lower (preNullClean s col)) then ([] : Str)
      else preNullClean s col) = []
    rw [if_pos h]
  · decide

/-- Witness for C7: the null-sentinel implication at a concrete input. -/
theorem c7_null_sentinel_collapse_witness :
    clean_value (str "N/A") (str "name") = [] :=
  (c7_null_sentinel_collapse (str "N/A") (str "name")).1 (by decide)

/-- C3: `clean_phone` cleans with field phone, returns empty on empty,
otherwise keeps only digits and applies the UK-mobile rewrite exactly when
the digit string starts with `44`, has 12 digits, and its third digit is
`7` — replacing the leading `44` by `0` — and otherwise returns the digit
string unchanged; the spec's two examples hold. -/
theorem c3_clean_phone_rewrite (v : Str) :
    (clean_value v (str "phone") = [] → clean_phone v = []) ∧
    (((clean_value v (str "phone")).filter isPyDigit).take 2 = str "44" →
      ((clean_value v (str "phone")).filter isPyDigit).length = 12 →
      ((clean_value v (str "phone")).filter isPyDigit).get? 2 = some '7' →
      clean_phone v =
        '0' :: ((clean_value v (str "phone")).filter isPyDigit).drop 2) ∧
    (¬(((clean_value v (str "phone")).filter isPyDigit).take 2 = str "44" ∧
        ((clean_value v (str "phone")).filter isPyDigit).length = 12 ∧
        ((clean_value v (str "phone")).filter isPyDigit).get? 2 = some '7') →
      clean_phone v = (clean_value v (str "phone")).filter isPyDigit) ∧
    clean_phone (str "+447911123456") = str "07911123456" ∧
    clean_phone (str "0044207911234") = str "0044207911234" := by
  refine ⟨?_, ?_, ?_, by decide, by decide⟩
  · intro h
    unfold clean_phone
    rw [if_pos (isEmpty_eq_true_of h)]
  · intro h1 h2 h3
    have hne : clean_value v (str "phone") ≠ [] := by
      intro h0
      rw [h0] at h2
      simp at h2
    have hcond : (((clean_value v (str "phone")).filter isPyDigit).take 2 == str "44"
        && ((clean_value v (str "phone")).filter isPyDigit).length == 12
        && ((clean_value v (str "phone")).filter isPyDigit).get? 2 == some '7') = true := by
      rw [h1, h2, h3]
      rfl
    unfold clean_phone
    rw [if_neg (by rw [isEmpty_eq_false_of_ne hne]; simp), if_pos hcond]
  · intro hcond
    by_cases h0 : clean_value v (str "phone") = []
    · unfold clean_phone
      rw [if_pos (isEmpty_eq_true_of h0), h0]
      rfl
    · have hcf : (((clean_value v (str "phone")).filter isPyDigit).take 2 == str "44"
          && ((clean_value v (str "phone")).filter isPyDigit).length == 12
          && ((clean_value v (str "phone")).filter isPyDigit).get? 2 == some '7') = false := by
        cases hb : (((clean_value v (str "phone")).filter isPyDigit).take 2 == str "44"
            && ((clean_value v (str "phone")).filter isPyDigit).length == 12
            && ((clean_value v (str "phone")).filter isPyDigit).get? 2 == some '7')
        · rfl
        · exfalso
          simp only [Bool.and_eq_true, beq_iff_eq] at hb
          exact hcond ⟨hb.1.1, hb.1.2, hb.2⟩
      unfold clean_phone
      rw [if_neg (by rw [isEmpty_eq_false_of_ne h0]; simp),
        if_neg (by rw [hcf]; simp)]

/-- Witness for C3: the rewrite branch, the pass-through branch and the
empty branch exercised at concrete inputs. -/
theorem c3_clean_phone_rewrite_witness :
    clean_phone (str "tel: 44-7700-900123") = str "07700900123" ∧
    clean_phone (str "(020) 7946 0018") = str "02079460018" ∧
    clean_phone (str "n/a") = [] := by
  refine ⟨?_, ?_, ?_⟩
  · exact ((c3_clean_phone_rewrite (str "tel: 44-7700-900123")).2.1
      (by decide) (by decide) (by decide)).trans (by decide)
  · exact ((c3_clean_phone_rewrite (str "(020) 7946 0018")).2.2.1
      (by decide)).trans (by decide)
  · exact (c3_clean_phone_rewrite (str "n/a")).1 (by decide)

/-- C5: the claim as stated fails on the code: `looks_like_email` strips
leading and trailing whitespace before all checks, so the
whitespace-containing string `' a@b.com '` is accepted, not rejected. -/
theorem c5_whitespace_counterexample :
    (str " a@b.com ").any isPySpace = true ∧
    looks_like_email (str " a@b.com ") = true := by decide

/-- C5 (amended): after stripping leading and trailing whitespace,
`looks_like_email` rejects an empty string, a string whose `@`-count is
not exactly one, and a string with remaining (internal) whitespace;
otherwise, splitting at the `@`, it rejects when the local or domain part
is empty or the domain contains no `.`, and accepts otherwise; the spec's
four examples hold. -/
theorem c5_looks_like_email (s : Str) :
    (pyStrip s = [] → looks_like_email s = false) ∧
    ((pyStrip s).count '@' ≠ 1 → looks_like_email s = false) ∧
    ((pyStrip s).takeWhile (fun c => c ≠ '@') = [] →
      looks_like_email s = false) ∧
    (((pyStrip s).dropWhile (fun c => c ≠ '@')).drop 1 = [] →
      looks_like_email s = false) ∧
    ((pyStrip s).count '@' = 1 →
      ((((pyStrip s).dropWhile (fun c => c ≠ '@')).drop 1).contains '.' = false →
        looks_like_email s = false) ∧
      ((pyStrip s).any isPySpace = true → looks_like_email s = false) ∧
      ((pyStrip s).takeWhile (fun c => c ≠ '@') ≠ [] →
        ((pyStrip s).dropWhile (fun c => c ≠ '@')).drop 1 ≠ [] →
        (((pyStrip s).dropWhile (fun c => c ≠ '@')).drop 1).contains '.' = true →
        (pyStrip s).any isPySpace = false →
        looks_like_email s = true)) ∧
    looks_like_email (str "a@b.com") = true ∧
    looks_like_email (str "a@@b.com") = false ∧
    looks_like_email (str "a@b") = false ∧
    looks_like_email (str "a b@c.com") = false := by
  refine ⟨?_, ?_, ?_, ?_, ?_, by decide, by decide, by decide, by decide⟩
  · intro h
    rw [looks_like_email_eq, isEmpty_eq_true_of h]
    rfl
  · intro h
    have hf : ((pyStrip s).count '@' == 1) = false := by
      cases hb : (pyStrip s).count '@' == 1
      · rfl
      · exact absurd (by simpa using hb) h
    rw [looks_like_email_eq, hf]
    simp
  · intro h
    rw [looks_like_email_eq, isEmpty_eq_true_of h]
    simp
  · intro h
    rw [looks_like_email_eq, isEmpty_eq_true_of h]
    simp
  · intro hcount
    have hct : ((pyStrip s).count '@' == 1) = true := by simpa using hcount
    have hne : (pyStrip s).isEmpty = false := by
      apply isEmpty_eq_false_of_ne
      intro h0
      rw [h0] at hcount
      simp at hcount
    refine ⟨?_, ?_, ?_⟩
    · intro h
      rw [looks_like_email_eq, h]
      simp
    · intro h
      rw [looks_like_email_eq, h]
      simp
    · intro h1 h2 h3 h4
      rw [looks_like_email_eq, hne, hct, isEmpty_eq_false_of_ne h1,
        isEmpty_eq_false_of_ne h2, h3, h4]
      rfl

/-- Witness for C5: the acceptance branch and two rejection branches
exercised at concrete inputs. -/
theorem c5_looks_like_email_witness :
    looks_like_email (str " ok@host.org ") = true ∧
    looks_like_email (str "@host.org") = false ∧
    looks_like_email (str "x@y") = false := by
  refine ⟨?_, ?_, ?_⟩
  · exact ((c5_looks_like_email (str " ok@host.org ")).2.2.2.2.1
      (by decide)).2.2 (by decide) (by decide) (by decide) (by decide)
  · exact (c5_looks_like_email (str "@host.org")).2.2.1 (by decide)
  · exact ((c5_looks_like_email (str "x@y")).2.2.2.2.1 (by decide)).1 (by decide)

/-- C1: classification is a one-shot decision in fixed order: all-empty
records are rejected as empty first, then the email-validity check, then
the duplicate check, else acceptance; in particular an all-empty record is
classified empty and never invalid-email, although the empty string fails
`looks_like_email`. -/
theorem c1_classification_order (seen : List (Str × Str)) (r : CleanRecord) :
    (r.email = [] ∧ r.name = [] ∧ r.phone = [] → classify seen r = .empty) ∧
    (¬(r.email = [] ∧ r.name = [] ∧ r.phone = []) →
      looks_like_email r.email = false → classify seen r = .invalidEmail) ∧
    (¬(r.email = [] ∧ r.name = [] ∧ r.phone = []) →
      looks_like_email r.email = true → seen.contains (row_key r) = true →
      classify seen r = .duplicate) ∧
    (¬(r.email = [] ∧ r.name = [] ∧ r.phone = []) →
      looks_like_email r.email = true → seen.contains (row_key r) = false →
      classify seen r = .accepted) ∧
    (∀ s', classify s' { email := [], name := [], phone := [] } = .empty) ∧
    looks_like_email [] = false := by
  refine ⟨?_, ?_, ?_, ?_, ?_, by decide⟩
  · intro h
    simp [classify, h]
  · intro h1 h2
    simp [classify, h1, h2]
  · intro h1 h2 h3
    simp only [classify, if_neg h1, h2, Bool.not_true]
    rw [if_neg (by simp)]
    rw [if_pos (by simpa using h3)]
  · intro h1 h2 h3
    simp only [classify, if_neg h1, h2, Bool.not_true]
    rw [if_neg (by simp)]
    rw [if_neg (by simpa using h3)]
  · intro s'
    simp [classify]

/-- Witness for C1: the acceptance and invalid-email branches at concrete
inputs. -/
theorem c1_classification_order_witness :
    classify [] { email := str "a@b.com", name := [], phone := [] }
        = .accepted ∧
    classify [] { email := str "bad", name := str "x", phone := [] }
        = .invalidEmail := by
  constructor
  · exact (c1_classification_order []
      { email := str "a@b.com", name := [], phone := [] }).2.2.2.1
      (by decide) (by decide) (by decide)
  · exact (c1_classification_order []
      { email := str "bad", name := str "x", phone := [] }).2.1
      (by decide) (by decide)

/-! ### State-machine lemmas for the run loop -/

theorem processRecord_empty {st : RunState} {r : CleanRecord}
    (hc : classify st.seen r = .empty) :
    processRecord st r =
      { st with
        rows_read := st.rows_read + 1
        rows_skipped_empty := st.rows_skipped_empty + 1 } := by
  unfold processRecord
  rw [hc]

theorem processRecord_invalid {st : RunState} {r : CleanRecord}
    (hc : classify st.seen r = .invalidEmail) :
    processRecord st r =
      { st with
        rows_read := st.rows_read + 1
        rows_skipped_invalid_email := st.rows_skipped_invalid_email + 1 } := by
  unfold processRecord
  rw [hc]

theorem processRecord_duplicate {st : RunState} {r : CleanRecord}
    (hc : classify st.seen r = .duplicate) :
    processRecord st r =
      { st with
        rows_read := st.rows_read + 1
        dupes_removed := st.dupes_removed + 1 } := by
  unfold processRecord
  rw [hc]

theorem processRecord_accepted {st : RunState} {r : CleanRecord}
    (hc : classify st.seen r = .accepted) :
    processRecord st r =
      { st with
        rows_read := st.rows_read + 1
        seen := st.seen ++ [row_key r]
        output_rows := st.output_rows ++ [r]
        rows_written := st.rows_written + 1 } := by
  unfold processRecord
  rw [hc]

theorem processRecord_files (st : RunState) (r : CleanRecord) (k : Nat) :
    processRecord (setFiles st k) r = setFiles (processRecord st r) k := by
  obtain ⟨fp, rr, rw_, se, dr, rie, sn, orw⟩ := st
  unfold processRecord setFiles
  cases hc : classify sn r <;> rfl

theorem processFiles_nil (st : RunState) : processFiles st [] = st := rfl

theorem processFiles_cons (st : RunState) (f : List (List Str))
    (fs : List (List (List Str))) :
    processFiles st (f :: fs) = processFiles (processFile st f) fs := rfl

theorem processFiles_append (st : RunState) (a b : List (List (List Str))) :
    processFiles st (a ++ b) = processFiles (processFiles st a) b :=
  List.foldl_append _ _ _ _

theorem foldl_rows_files (mapping : List (Str × Str)) (header : List Str) :
    ∀ (rows : List (List Str)) (st : RunState) (k : Nat),
      rows.foldl (fun s row => processRow s mapping (header.zip row))
          (setFiles st k)
        = setFiles
            (rows.foldl (fun s row => processRow s mapping (header.zip row)) st)
            k := by
  intro rows
  induction rows with
  | nil => intro st k; rfl
  | cons row rest ih =>
    intro st k
    simp only [List.foldl_cons]
    rw [show processRow (setFiles st k) mapping (header.zip row)
        = setFiles (processRow st mapping (header.zip row)) k from
      processRecord_files st (assembleRow mapping (header.zip row)) k]
    exact ih _ _

theorem processFile_files (f : List (List Str)) (st : RunState) (k : Nat) :
    processFile (setFiles st k) f = setFiles (processFile st f) (k + 1) := by
  cases f with
  | nil => rfl
  | cons header rows =>
    show (if header.isEmpty then
        { setFiles st k with
          files_processed := (setFiles st k).files_processed + 1 }
      else
        (rows.filter (fun row => !row.isEmpty)).foldl
          (fun s row => processRow s (build_mapping header) (header.zip row))
          { setFiles st k with
            files_processed := (setFiles st k).files_processed + 1 })
      = setFiles
        (if header.isEmpty then
          { st with files_processed := st.files_processed + 1 }
        else
          (rows.filter (fun row => !row.isEmpty)).foldl
            (fun s row => processRow s (build_mapping header) (header.zip row))
            { st with files_processed := st.files_processed + 1 })
        (k + 1)
    by_cases hh : header.isEmpty = true
    · rw [if_pos hh, if_pos hh]
      rfl
    · rw [if_neg hh, if_neg hh]
      rw [show ({ setFiles st k with
            files_processed := (setFiles st k).files_processed + 1 } : RunState)
          = setFiles st (k + 1) from rfl]
      rw [foldl_rows_files]
      rw [show ({ st with files_processed := st.files_processed + 1 } : RunState)
          = setFiles st (st.files_processed + 1) from rfl]
      rw [foldl_rows_files]
      rfl

theorem processFiles_files (files : List (List (List Str))) :
    ∀ (st : RunState) (k : Nat),
      processFiles (setFiles st k) files
        = setFiles (processFiles st files) (k + files.length) := by
  induction files with
  | nil => intro st k; rfl
  | cons f fs ih =>
    intro st k
    rw [processFiles_cons, processFile_files, ih]
    rw [processFiles_cons]
    rw [show processFile st f = setFiles (processFile st f)
        ((processFile st f).files_processed) from rfl]
    rw [ih]
    simp only [List.length_cons, setFiles]
    congr 1
    omega

theorem processFiles_files_count (st : RunState) (files : List (List (List Str))) :
    (processFiles st files).files_processed
      = st.files_processed + files.length := by
  rw [show st = setFiles st st.files_processed from rfl, processFiles_files]
  rfl

theorem preserve_fold {P : RunState → Prop}
    (hrec : ∀ st r, P st → P (processRecord st r))
    (mapping : List (Str × Str)) (header : List Str) :
    ∀ (rows : List (List Str)) (st : RunState),
      P st → P (rows.foldl (fun s row => processRow s mapping (header.zip row)) st) := by
  intro rows
  induction rows with
  | nil => intro st h; exact h
  | cons row rest ih =>
    intro st h
    exact ih _ (hrec _ _ h)

theorem preserve_file {P : RunState → Prop}
    (hrec : ∀ st r, P st → P (processRecord st r))
    (hfiles : ∀ st k, P st → P (setFiles st k)) :
    ∀ (f : List (List Str)) (st : RunState), P st → P (processFile st f) := by
  intro f st h
  cases f with
  | nil => exact hfiles st _ h
  | cons header rows =>
    have hred : processFile st (header :: rows)
        = if header.isEmpty then { st with files_processed := st.files_processed + 1 }
          else (rows.filter (fun row => !row.isEmpty)).foldl
            (fun s row => processRow s (build_mapping header) (header.zip row))
            { st with files_processed := st.files_processed + 1 } := rfl
    rw [hred]
    by_cases hh : header.isEmpty = true
    · rw [if_pos hh]
      exact hfiles st _ h
    · rw [if_neg hh]
      exact preserve_fold hrec _ _ _ _ (hfiles st _ h)

theorem preserve_files {P : RunState → Prop}
    (hrec : ∀ st r, P st → P (processRecord st r))
    (hfiles : ∀ st k, P st → P (setFiles st k)) :
    ∀ (files : List (List (List Str))) (st : RunState),
      P st → P (processFiles st files) := by
  intro files
  induction files with
  | nil => intro st h; exact h
  | cons f fs ih =>
    intro st h
    exact ih _ (preserve_file hrec hfiles f st h)

theorem classify_accepted_not_seen {st : RunState} {r : CleanRecord}
    (hc : classify st.seen r = .accepted) : row_key r ∉ st.seen := by
  unfold classify at hc
  split at hc
  · exact absurd hc (by simp)
  · split at hc
    · exact absurd hc (by simp)
    · split at hc
      · exact absurd hc (by simp)
      · rename_i hcont
        intro hmem
        exact hcont (by simpa using hmem)

theorem outputInv_processRecord :
    ∀ (st : RunState) (r : CleanRecord),
      OutputInv st → OutputInv (processRecord st r) := by
  intro st r h
  unfold processRecord
  cases hc : classify st.seen r with
  | empty => exact h
  | invalidEmail => exact h
  | duplicate => exact h
  | accepted =>
    obtain ⟨hnd, hsub⟩ := h
    have hnotin : row_key r ∉ st.seen := classify_accepted_not_seen hc
    constructor
    · show ((st.output_rows ++ [r]).map (fun r => r.email)).Nodup
      rw [List.map_append]
      refine List.Nodup.append hnd (List.nodup_singleton _) ?_
      intro a ha hb
      simp only [List.map_cons, List.map_nil, List.mem_singleton] at hb
      subst hb
      obtain ⟨r', hr', he⟩ := List.mem_map.mp ha
      apply hnotin
      have hk : row_key r' = row_key r := by
        unfold row_key
        rw [he]
      rw [← hk]
      exact hsub r' hr'
    · intro r' hr'
      rcases List.mem_append.mp hr' with h1 | h1
      · exact List.mem_append.mpr (Or.inl (hsub r' h1))
      · simp only [List.mem_singleton] at h1
        subst h1
        exact List.mem_append.mpr (Or.inr (by simp))

theorem outputInv_init : OutputInv initState :=
  ⟨List.nodup_nil, by intro r hr; simp [initState] at hr⟩

theorem countersBalanced_processRecord :
    ∀ (st : RunState) (r : CleanRecord),
      countersBalanced st → countersBalanced (processRecord st r) := by
  intro st r h
  obtain ⟨h1, h2⟩ := h
  unfold processRecord
  cases hc : classify st.seen r with
  | empty => exact ⟨by simp only []; omega, h2⟩
  | invalidEmail => exact ⟨by simp only []; omega, h2⟩
  | duplicate => exact ⟨by simp only []; omega, h2⟩
  | accepted =>
    constructor
    · show st.rows_read + 1 = st.rows_written + 1 + st.rows_skipped_empty
          + st.dupes_removed + st.rows_skipped_invalid_email
      omega
    · show st.rows_written + 1 = (st.output_rows ++ [r]).length
      rw [List.length_append]
      simp only [List.length_singleton]
      omega

/-- C2: deduplication is by cleaned email only: if two candidate records
pass the empty and validity checks and share the same email, the first is
accepted with its own name and phone kept and the second is rejected as a
duplicate whatever its other fields, with rows-written up by exactly one
and dupes-removed up by exactly one; consequently, output emails of a
whole run are pairwise distinct. -/
theorem c2_dedupe_by_email (st : RunState) (r1 r2 : CleanRecord)
    (h1 : ¬(r1.email = [] ∧ r1.name = [] ∧ r1.phone = []))
    (hv1 : looks_like_email r1.email = true)
    (hfresh : st.seen.contains (row_key r1) = false)
    (h2 : ¬(r2.email = [] ∧ r2.name = [] ∧ r2.phone = []))
    (hv2 : looks_like_email r2.email = true)
    (heq : r2.email = r1.email) :
    (processRecord st r1).output_rows = st.output_rows ++ [r1] ∧
    (processRecord st r1).rows_written = st.rows_written + 1 ∧
    (processRecord (processRecord st r1) r2).output_rows
        = st.output_rows ++ [r1] ∧
    (processRecord (processRecord st r1) r2).rows_written
        = st.rows_written + 1 ∧
    (processRecord (processRecord st r1) r2).dupes_removed
        = st.dupes_removed + 1 ∧
    ∀ files,
      ((processFiles initState files).output_rows.map (fun r => r.email)).Nodup := by
  have hkey : row_key r2 = row_key r1 := by
    unfold row_key
    rw [heq]
  have hc1 : classify st.seen r1 = .accepted := by
    unfold classify
    rw [if_neg h1, if_neg (by rw [hv1]; simp), if_neg (by rw [hfresh]; simp)]
  have hst1 := processRecord_accepted hc1
  have hc2 : classify (processRecord st r1).seen r2 = .duplicate := by
    unfold classify
    rw [if_neg h2, if_neg (by rw [hv2]; simp)]
    rw [if_pos]
    rw [hst1]
    show (st.seen ++ [row_key r1]).contains (row_key r2) = true
    rw [hkey]
    simp
  have hst2 := processRecord_duplicate hc2
  rw [hst2, hst1]
  refine ⟨rfl, rfl, rfl, rfl, rfl, ?_⟩
  intro files
  exact (preserve_files outputInv_processRecord (fun st k h => h) files initState
    outputInv_init).1

/-- Witness for C2: two concrete records with the same email and different
names and phones, and the duplicate-freeness of a concrete run. -/
theorem c2_dedupe_by_email_witness :
    (processRecord initState
        { email := str "a@b.com", name := str "Ann", phone := str "1" }).output_rows
      = initState.output_rows
          ++ [{ email := str "a@b.com", name := str "Ann", phone := str "1" }] ∧
    (processRecord
        (processRecord initState
          { email := str "a@b.com", name := str "Ann", phone := str "1" })
        { email := str "a@b.com", name := str "Bob", phone := str "2" }).dupes_removed
      = initState.dupes_removed + 1 ∧
    ((processFiles initState
        [[[str "email"], [str "a@b.com"], [str "a@b.com"]]]).output_rows.map
      (fun r => r.email)).Nodup := by
  have h := c2_dedupe_by_email initState
    { email := str "a@b.com", name := str "Ann", phone := str "1" }
    { email := str "a@b.com", name := str "Bob", phone := str "2" }
    (by decide) (by decide) (by decide) (by decide) (by decide) (by decide)
  exact ⟨h.1, h.2.2.2.2.1, h.2.2.2.2.2 _⟩

/-- C9: the claim that an empty (header-less) CSV file "does not affect
the run's counters" fails on the code: `files_processed` is incremented
before the header check, so an empty file does change that counter. -/
theorem c9_empty_file_counterexample :
    processFile initState [] ≠ initState ∧
    (processFile initState []).files_processed
        = initState.files_processed + 1 := by
  decide

/-- C9 (amended): an empty CSV file (no header row) is skipped entirely —
no rows are read from it, no records are accepted, and every row counter,
the seen set and the output collection are exactly as if the file were
absent from the run — but `files_processed` still counts it, exceeding the
run without it by one. -/
theorem c9_empty_file_skipped (st : RunState)
    (files1 files2 : List (List (List Str))) :
    processFile st [] = setFiles st (st.files_processed + 1) ∧
    (processFiles st (files1 ++ [] :: files2)).rows_read
        = (processFiles st (files1 ++ files2)).rows_read ∧
    (processFiles st (files1 ++ [] :: files2)).rows_written
        = (processFiles st (files1 ++ files2)).rows_written ∧
    (processFiles st (files1 ++ [] :: files2)).rows_skipped_empty
        = (processFiles st (files1 ++ files2)).rows_skipped_empty ∧
    (processFiles st (files1 ++ [] :: files2)).dupes_removed
        = (processFiles st (files1 ++ files2)).dupes_removed ∧
    (processFiles st (files1 ++ [] :: files2)).rows_skipped_invalid_email
        = (processFiles st (files1 ++ files2)).rows_skipped_invalid_email ∧
    (processFiles st (files1 ++ [] :: files2)).seen
        = (processFiles st (files1 ++ files2)).seen ∧
    (processFiles st (files1 ++ [] :: files2)).output_rows
        = (processFiles st (files1 ++ files2)).output_rows ∧
    (processFiles st (files1 ++ [] :: files2)).files_processed
        = (processFiles st (files1 ++ files2)).files_processed + 1 := by
  have key : processFiles st (files1 ++ [] :: files2)
      = setFiles (processFiles (processFiles st files1) files2)
          ((processFiles st files1).files_processed + 1 + files2.length) := by
    rw [processFiles_append, processFiles_cons]
    rw [show processFile (processFiles st files1) []
        = setFiles (processFiles st files1)
            ((processFiles st files1).files_processed + 1) from rfl]
    rw [processFiles_files]
  have hsplit : processFiles st (files1 ++ files2)
      = processFiles (processFiles st files1) files2 := processFiles_append _ _ _
  have hcount : (processFiles (processFiles st files1) files2).files_processed
      = (processFiles st files1).files_processed + files2.length :=
    processFiles_files_count _ _
  rw [key, hsplit]
  refine ⟨rfl, rfl, rfl, rfl, rfl, rfl, rfl, rfl, ?_⟩
  show (processFiles st files1).files_processed + 1 + files2.length
      = (processFiles (processFiles st files1) files2).files_processed + 1
  omega

/-- C10: counter conservation: rows-read always equals the sum of the four
outcome counters, and rows-written always equals the size of the output
collection — the invariant holds initially, is preserved by every
processed row, and therefore holds after every run. -/
theorem c10_counter_conservation :
    countersBalanced initState ∧
    (∀ st r, countersBalanced st → countersBalanced (processRecord st r)) ∧
    ∀ files, countersBalanced (processFiles initState files) := by
  have hinit : countersBalanced initState := ⟨rfl, rfl⟩
  refine ⟨hinit, countersBalanced_processRecord, ?_⟩
  intro files
  exact preserve_files countersBalanced_processRecord (fun st k h => h) files
    initState hinit

/-- Witness for C10: the invariant checked through the theorem on a
concrete record and a concrete two-file run. -/
theorem c10_counter_conservation_witness :
    countersBalanced (processRecord initState
      { email := str "a@b.com", name := [], phone := [] }) ∧
    countersBalanced (processFiles initState
      [[[str "email"], [str "a@b.com"], [str "bad"], [str "a@b.com"]], []]) := by
  constructor
  · exact c10_counter_conservation.2.1 initState
      { email := str "a@b.com", name := [], phone := [] }
      c10_counter_conservation.1
  · exact c10_counter_conservation.2.2 _

end CsvCleaner
